import Mathlib

/-!
Formal model of the breathing-web session engine.

The repository is a small client-side breathing-exercise timer.  Its core is
the `BreathingExercise` component (gain-node variant, `src/unnamed/part_000`),
which drives three timer-based processes: a session-wide countdown, a per-phase
countdown (`startPhaseTimer`), and a per-phase stepped scale animation with
audio cues (`animatePhase`).  The `SetupForm` component (`src/unnamed/part_003`)
persists one favorite preset in local storage as JSON.

This file shallowly embeds those pieces: the cyclic phase state machine, the
two 1 Hz interval handlers, the 30-step-per-second scale animation (with the
JavaScript division-by-zero behaviour made explicit), the effect-cleanup
structure of the animation effect, and the favorite-preset JSON round trip
(browser built-ins `JSON.parse` / `JSON.stringify` are modelled on the JSON
fragment this program produces and reads: null, booleans, integer numbers,
escape-free strings and flat objects).
-/

namespace Breathing

/-- The `settings` prop of `BreathingExercise` / the values managed by
`SetupForm`: phase durations in seconds and total duration in minutes.
All four are integers produced by range inputs. -/
structure Settings where
  inhaleTime : Nat
  holdTime : Nat
  exhaleTime : Nat
  duration : Nat
deriving DecidableEq, Repr

/-- Slider bounds from `SetupForm` (`min`/`max` on the four range inputs):
phases 0–10 seconds, duration 1–20 minutes. -/
def Valid (s : Settings) : Prop :=
  s.inhaleTime ≤ 10 ∧ s.holdTime ≤ 10 ∧ s.exhaleTime ≤ 10 ∧
    1 ≤ s.duration ∧ s.duration ≤ 20

instance (s : Settings) : Decidable (Valid s) := by
  unfold Valid; infer_instance

/-- `type Phase = 'inhale' | 'hold' | 'exhale'`. -/
inductive Phase where
  | inhale
  | hold
  | exhale
deriving DecidableEq, Repr

/-- The phase transition taken when the current phase finishes, from
`animatePhase` in `part_000` (lines 131–192): the inhale animation's
completion branch goes to `hold` iff `settings.holdTime > 0` and otherwise to
`exhale`; the hold `setTimeout` goes to `exhale`; the exhale animation's
completion branch goes to `inhale`. -/
def nextPhase (s : Settings) : Phase → Phase
  | .inhale => if 0 < s.holdTime then .hold else .exhale
  | .hold => .exhale
  | .exhale => .inhale

/-- The sequence of phases entered during a session: `currentPhase` starts at
`'inhale'` (`useState<Phase>('inhale')`) and each completion applies
`nextPhase`. -/
def phaseSeq (s : Settings) : Nat → Phase
  | 0 => .inhale
  | n + 1 => nextPhase s (phaseSeq s n)

/-- `currentPhaseDuration` in `startPhaseTimer`: the nominal duration of a
phase by kind. -/
def phaseDuration (s : Settings) : Phase → Nat
  | .inhale => s.inhaleTime
  | .hold => s.holdTime
  | .exhale => s.exhaleTime

/-- `inhaleSteps = settings.inhaleTime * 30` in `animatePhase`. -/
def inhaleSteps (s : Settings) : Nat := s.inhaleTime * 30

/-- `exhaleSteps = settings.exhaleTime * 30` in `animatePhase`. -/
def exhaleSteps (s : Settings) : Nat := s.exhaleTime * 30

/-- Milliseconds between animation steps: `setInterval(..., 1000 / 30)`. -/
def stepIntervalMs : ℚ := 1000 / 30

/-- The step indices at which an `n`-step animation interval fires: the
handler increments the step counter first and checks `step >= steps`
afterwards, so the ticks are `1, 2, …, n` — and an interval whose step count
is `0` still fires once (its first tick already satisfies `1 >= 0`). -/
def animTickIndices (n : Nat) : List Nat := List.range' 1 (max n 1)

/-- How many animation interval ticks run for each phase in `animatePhase`:
the inhale and exhale cases start a stepped interval, the hold case only a
single `setTimeout` with no animation loop. -/
def phaseAnimTickCount (s : Settings) : Phase → Nat
  | .inhale => (animTickIndices (inhaleSteps s)).length
  | .hold => 0
  | .exhale => (animTickIndices (exhaleSteps s)).length

/-- Whether entering a phase triggers an audio cue in `animatePhase`
(`part_000`): the inhale and exhale cases call `playSound` unconditionally,
the hold case plays nothing. -/
def entryPlaysCue : Phase → Bool
  | .inhale => true
  | .hold => false
  | .exhale => true

/-- The four `useState` initial values of `BreathingExercise`
(`part_000` lines 24–27). -/
structure SessionState where
  remainingTime : Nat
  currentPhase : Phase
  phaseTimeLeft : Nat
  scale : ℝ

/-- Initial session state: `remainingTime = settings.duration * 60`,
`currentPhase = 'inhale'`, `phaseTimeLeft = settings.inhaleTime`,
`scale = 1`. -/
def initState (s : Settings) : SessionState :=
  ⟨s.duration * 60, .inhale, s.inhaleTime, 1⟩

/-- State of the session countdown interval (`part_000` lines 72–96):
the displayed remaining value, whether the interval is still registered,
and how many times the end branch has scheduled the `onStop` timeout. -/
structure CdState where
  v : Int
  active : Bool
  stopsScheduled : Nat
deriving DecidableEq, Repr

/-- The grace delay before `onStop` fires: `setTimeout(() => onStop(), 1000)`. -/
def onStopDelayMs : Nat := 1000

/-- One tick of the session countdown handler (`part_000` lines 73–88).
When `prev <= 1` it clears its own interval, attempts to play the end cue —
`endAudioRef.current.play().catch(console.error)`, whose failure is only
logged (the returned string list) — schedules `onStop` once, and pins the
value at `0`; otherwise it decrements.  The handler closes over neither the
current phase nor any phase state, which the unused `phase` argument makes
explicit, and the play outcome `endPlay` influences only the log, never the
state. -/
def cdStep (phase : Phase) (endPlay : Except String Unit) (st : CdState) :
    CdState × List String :=
  if st.active then
    if st.v ≤ 1 then
      (⟨0, false, st.stopsScheduled + 1⟩,
        match endPlay with
        | .ok _ => []
        | .error e => [e])
    else
      (⟨st.v - 1, true, st.stopsScheduled⟩, [])
  else
    (st, [])

/-- The countdown state after `k` ticks, starting from
`useState(settings.duration * 60)` with the interval registered. -/
def cdTrace (phase : Phase) (endPlay : Except String Unit) (start : Int) :
    Nat → CdState
  | 0 => ⟨start, true, 0⟩
  | k + 1 => (cdStep phase endPlay (cdTrace phase endPlay start k)).1

/-- State of the per-phase countdown interval started by `startPhaseTimer`
(`part_000` lines 98–129): the displayed `phaseTimeLeft` and whether the
interval is still registered. -/
structure PtState where
  v : Int
  active : Bool
deriving DecidableEq, Repr

/-- One tick of the `startPhaseTimer` interval: when `prev <= 1` it clears
its own interval and resets the value to the phase's nominal duration `d`;
otherwise it decrements. -/
def ptStep (d : Int) (st : PtState) : PtState :=
  if st.active then
    if st.v ≤ 1 then ⟨d, false⟩ else ⟨st.v - 1, true⟩
  else
    st

/-- The phase-timer state after `k` ticks: `startPhaseTimer` sets
`phaseTimeLeft` to the nominal duration and registers the interval. -/
def ptTrace (d : Int) : Nat → PtState
  | 0 => ⟨d, true⟩
  | k + 1 => ptStep d (ptTrace d k)

/-- The teardown steps a variant's animation effect performs. -/
inductive CleanupAction where
  | clearStepTimer
  | clearFadeTimer
  | fadeOutAudioCtx
deriving DecidableEq, Repr

/-- Cleanup of the `animatePhase` effect in the gain-node variant
(`part_000` lines 187–191): it only calls `fadeOutAndStop` on the audio
context; the `inhaleInterval` / `exhaleInterval` handles are local to the
handler and are never cleared here. -/
def animCleanupGainNodeVariant : List CleanupAction :=
  [CleanupAction.fadeOutAudioCtx]

/-- Cleanup of the `animatePhase` effect in the volume-stepping variant
(`part_001` lines 228–235): it clears `phaseInterval` (the step timer) and
the fade interval. -/
def animCleanupVolumeStepVariant : List CleanupAction :=
  [CleanupAction.clearStepTimer, CleanupAction.clearFadeTimer]

/-- Number of further animation ticks (each calling `setScale`) that fire
after teardown happens at step `j` of a running `n`-step animation: if the
cleanup clears the step timer none fire; otherwise the interval keeps firing
until its own completion check at step `max n 1`. -/
def ticksAfterTeardown (cleanup : List CleanupAction) (n j : Nat) : Nat :=
  if CleanupAction.clearStepTimer ∈ cleanup then 0 else max n 1 - j

/-- A JavaScript number as produced by the scale computation: either a
finite value (idealised as a real) or the single non-finite outcome `nan`
(IEEE `NaN`).  When an animation's step count is `0`, the handler computes
`progress = step / 0 = Infinity` and `Math.cos(Infinity * π / 2) = NaN`, so
the whole scale expression collapses to `NaN`. -/
inductive JSVal where
  | nan
  | fin (x : ℝ)

/-- Scale set by tick `k` of an `n`-step inhale animation, for `n ≠ 0`:
`easeProgress = 1 - Math.cos((progress * Math.PI) / 2)` and
`scale = 1 + 0.3 * easeProgress` with `progress = k / n`
(`part_000` lines 140–143). -/
noncomputable def inhaleScaleAt (n k : Nat) : ℝ :=
  1 + 0.3 * (1 - Real.cos ((k : ℝ) / (n : ℝ) * Real.pi / 2))

/-- Scale set by tick `k` of an `n`-step exhale animation, for `n ≠ 0`:
`easeProgress = Math.sin((progress * Math.PI) / 2)` and
`scale = 1.3 - 0.3 * easeProgress` (`part_000` lines 169–172). -/
noncomputable def exhaleScaleAt (n k : Nat) : ℝ :=
  1.3 - 0.3 * Real.sin ((k : ℝ) / (n : ℝ) * Real.pi / 2)

/-- The JavaScript value `setScale` receives at tick `k` of an `n`-step
inhale animation: `NaN` when `n = 0` (division by zero), otherwise the
finite eased value. -/
noncomputable def jsScaleInhale (n k : Nat) : JSVal :=
  if n = 0 then .nan else .fin (inhaleScaleAt n k)

/-- The JavaScript value `setScale` receives at tick `k` of an `n`-step
exhale animation: `NaN` when `n = 0`, otherwise the finite eased value. -/
noncomputable def jsScaleExhale (n k : Nat) : JSVal :=
  if n = 0 then .nan else .fin (exhaleScaleAt n k)

/-- The scale reset to `1` on entry to the inhale case: `setScale(1)`. -/
def inhaleEntryScale : ℝ := 1

/-- Every value the `scale` state takes during a session with the given
settings: the initial `useState(1)` / inhale-entry reset, the values set by
the inhale animation ticks, and the values set by the exhale animation
ticks.  The hold case never writes `scale`, so during hold the scale keeps
its last written value, which is already in this list.  Settings are
immutable for a session, so every cycle writes the same values. -/
noncomputable def reachableScales (s : Settings) : List JSVal :=
  JSVal.fin inhaleEntryScale ::
    ((animTickIndices (inhaleSteps s)).map (jsScaleInhale (inhaleSteps s))
      ++ (animTickIndices (exhaleSteps s)).map (jsScaleExhale (exhaleSteps s)))

/-- A JavaScript scale value lying in the closed interval `[1.0, 1.3]`
(`NaN` never satisfies this: every comparison with `NaN` is false). -/
def inRangeJS (v : JSVal) : Prop :=
  ∃ x : ℝ, v = JSVal.fin x ∧ 1 ≤ x ∧ x ≤ 1.3

/-- A parsed JSON value, as returned by the browser's `JSON.parse` on the
fragment of JSON this program can produce or meet: null, booleans, integer
numbers, escape-free strings, and objects. -/
inductive JsonVal where
  | jnull
  | jbool (b : Bool)
  | jnum (n : Int)
  | jstr (s : String)
  | jobj (fields : List (String × JsonVal))
deriving Repr

/-- Decimal digit character for a value below ten. -/
def digitChar : Nat → Char
  | 0 => '0'
  | 1 => '1'
  | 2 => '2'
  | 3 => '3'
  | 4 => '4'
  | 5 => '5'
  | 6 => '6'
  | 7 => '7'
  | 8 => '8'
  | _ => '9'

/-- Decimal rendering of a natural number, as `JSON.stringify` renders the
integer slider values. -/
def natLitList (n : Nat) : List Char :=
  if h : n < 10 then [digitChar n]
  else natLitList (n / 10) ++ [digitChar (n % 10)]
decreasing_by exact Nat.div_lt_self (by omega) (by omega)

/-- Numeric value of a digit character. -/
def digitVal (c : Char) : Nat := c.toNat - 48

/-- Value of a decimal digit string. -/
def digitsVal (l : List Char) : Nat :=
  l.foldl (fun a c => 10 * a + digitVal c) 0

/-- Strip an expected character sequence from the front of the input,
returning the remainder on success. -/
def stripPfx : List Char → List Char → Option (List Char)
  | [], cs => some cs
  | _ :: _, [] => none
  | p :: ps, c :: cs => if c = p then stripPfx ps cs else none

/-- Parse the remainder of a JSON string literal (the opening quote already
consumed): everything up to the next `"`. -/
def parseStringRest (cs : List Char) : Except String (String × List Char) :=
  match cs.dropWhile (fun c => c != '"') with
  | '"' :: rest => .ok (⟨cs.takeWhile (fun c => c != '"')⟩, rest)
  | _ => .error "unterminated string"

/-- Parse a JSON non-negative integer literal from the front of the input. -/
def parseNum (cs : List Char) : Except String (JsonVal × List Char) :=
  if cs.takeWhile Char.isDigit = [] then .error "unexpected token"
  else
    .ok (.jnum ((digitsVal (cs.takeWhile Char.isDigit) : Nat) : Int),
      cs.dropWhile Char.isDigit)

/-- Model of the browser's `JSON.parse` at scalar positions: null, true,
false, an escape-free string, or an integer number.  Anything else fails,
as `JSON.parse` throws on malformed input. -/
def parseScalar : List Char → Except String (JsonVal × List Char)
  | [] => .error "unexpected end of input"
  | c :: cs =>
    if c = 'n' then
      match stripPfx ['u', 'l', 'l'] cs with
      | some r => .ok (.jnull, r)
      | none => .error "invalid literal"
    else if c = 't' then
      match stripPfx ['r', 'u', 'e'] cs with
      | some r => .ok (.jbool true, r)
      | none => .error "invalid literal"
    else if c = 'f' then
      match stripPfx ['a', 'l', 's', 'e'] cs with
      | some r => .ok (.jbool false, r)
      | none => .error "invalid literal"
    else if c = '"' then
      match parseStringRest cs with
      | .ok (s, r) => .ok (.jstr s, r)
      | .error e => .error e
    else if c = '-' then
      match parseNum cs with
      | .ok (.jnum n, r) => .ok (.jnum (-n), r)
      | .ok _ => .error "invalid number"
      | .error e => .error e
    else parseNum (c :: cs)

/-- How an object member ends: a comma before the next member, or the
closing brace. -/
inductive MemberEnd where
  | comma (rest : List Char)
  | close (rest : List Char)

/-- After an object key, expect a colon. -/
def expectColon : String × List Char → Except String (String × List Char)
  | (key, ':' :: cs2) => .ok (key, cs2)
  | _ => .error "expected colon"

/-- After an object member's value, expect a comma or the closing brace. -/
def finishMember (key : String) :
    JsonVal × List Char → Except String ((String × JsonVal) × MemberEnd)
  | (v, ',' :: cs4) => .ok ((key, v), .comma cs4)
  | (v, '\x7d' :: cs4) => .ok ((key, v), .close cs4)
  | _ => .error "expected comma or end of object"

/-- Parse one `"key": scalar` object member together with its terminator. -/
def parseOneMember : List Char → Except String ((String × JsonVal) × MemberEnd)
  | [] => .error "expected object key"
  | c :: cs =>
    if c = '"' then
      (parseStringRest cs).bind fun kr =>
        (expectColon kr).bind fun kc =>
          (parseScalar kc.2).bind fun vr =>
            finishMember kc.1 vr
    else .error "expected object key"

/-- Model of `JSON.parse` inside an object: parse `"key": scalar` members
separated by commas until the closing brace, with a fuel argument bounding
the member count.  The repository only ever persists a flat object of four
integer fields, so member values are parsed as scalars. -/
def parseMembers :
    Nat → List Char → List (String × JsonVal) →
      Except String (JsonVal × List Char)
  | 0, _, _ => .error "out of fuel"
  | f + 1, cs, acc =>
    match parseOneMember cs with
    | .ok (kv, .comma cs4) => parseMembers f cs4 (acc ++ [kv])
    | .ok (kv, .close cs4) => .ok (.jobj (acc ++ [kv]), cs4)
    | .error e => .error e

/-- Model of `JSON.parse` after an opening brace: an empty object, or a
run of members. -/
def parseObjRest : List Char → Except String (JsonVal × List Char)
  | [] => .error "unexpected end of input"
  | c2 :: cs2 =>
    if c2 = '\x7d' then .ok (.jobj [], cs2)
    else parseMembers (cs2.length + 2) (c2 :: cs2) []

/-- Model of `JSON.parse` at value position: a scalar, or an object of
scalar members. -/
def parseJsonValue : List Char → Except String (JsonVal × List Char)
  | [] => .error "unexpected end of input"
  | c :: cs =>
    if c = '\x7b' then parseObjRest cs
    else parseScalar (c :: cs)

/-- Model of `JSON.parse`: parse one value covering the whole input, or
fail (a thrown `SyntaxError` in the browser). -/
def jsonParse (s : String) : Except String JsonVal :=
  match parseJsonValue s.data with
  | .ok (v, []) => .ok v
  | .ok (_, _ :: _) => .error "unexpected trailing characters"
  | .error e => .error e

/-- The four fields of the `values` object that `SetupForm` stringifies, in
object-key order: `inhaleTime`, `holdTime`, `exhaleTime`, `duration`. -/
def settingsFields (v : Settings) : List (String × Nat) :=
  [("inhaleTime", v.inhaleTime), ("holdTime", v.holdTime),
    ("exhaleTime", v.exhaleTime), ("duration", v.duration)]

/-- `JSON.stringify` rendering of one `"key":value` member. -/
def fieldData (kv : String × Nat) : List Char :=
  ['"'] ++ kv.1.data ++ ['"', ':'] ++ natLitList kv.2

/-- `JSON.stringify` rendering of an object's members, comma-separated. -/
def fieldsData : List (String × Nat) → List Char
  | [] => []
  | [kv] => fieldData kv
  | kv :: kv2 :: tail => fieldData kv ++ [','] ++ fieldsData (kv2 :: tail)

/-- `JSON.stringify(values)` in `saveFavorite` (`part_003` line 46): the
flat object of the four integer fields in declaration order. -/
def stringifySettings (v : Settings) : String :=
  ⟨'\x7b' :: (fieldsData (settingsFields v) ++ ['\x7d'])⟩

/-- The parsed-JSON value corresponding to a settings object. -/
def settingsJson (v : Settings) : JsonVal :=
  .jobj ((settingsFields v).map fun kv => (kv.1, .jnum (kv.2 : Int)))

/-- The local-storage key `FAVORITE_MODE_KEY = 'breathing-favorite-mode'`. -/
def favoriteModeKey : String := "breathing-favorite-mode"

/-- Storage slot contents after `saveFavorite`:
`localStorage.setItem(FAVORITE_MODE_KEY, JSON.stringify(values))`. -/
def saveFavorite (v : Settings) : Option String :=
  some (stringifySettings v)

/-- Storage slot contents after `clearFavorite`:
`localStorage.removeItem(FAVORITE_MODE_KEY)`. -/
def clearedFavoriteStore : Option String := none

/-- The `favoriteMode` `useState` initializer of `SetupForm` (`part_003`
lines 22–26): read the persisted record; a missing (or empty, hence falsy)
string yields `null`; otherwise the raw string is passed to `JSON.parse`
with no `try`/`catch` and no shape validation, so a parse failure
propagates out of the initializer (`.error`), and any parsed value is used
as the favorite as-is. -/
def favoriteInit : Option String → Except String JsonVal
  | none => .ok .jnull
  | some s => if s = "" then .ok .jnull else jsonParse s

/-- JavaScript property access on a parsed favorite
(e.g. `favoriteMode.inhaleTime`): field lookup on an object, `undefined`
(here `none`) otherwise. -/
def getField (j : JsonVal) (k : String) : Option JsonVal :=
  match j with
  | .jobj fields => List.lookup k fields
  | _ => none

/-- JavaScript truthiness of a parsed value, as used by the
`favoriteMode ? … : …` checks in `SetupForm`. -/
def jsTruthy : JsonVal → Bool
  | .jnull => false
  | .jbool b => b
  | .jnum n => n != 0
  | .jstr s => s != ""
  | .jobj _ => true

end Breathing

namespace Breathing

/-- Helper: `phaseSeq` unfolding. -/
theorem phaseSeq_succ (s : Settings) (n : Nat) :
    phaseSeq s (n + 1) = nextPhase s (phaseSeq s n) := rfl

/-- Helper: with `holdTime = 0` the phase sequence alternates
inhale/exhale by parity. -/
theorem phaseSeq_holdZero (s : Settings) (h : s.holdTime = 0) (n : Nat) :
    phaseSeq s n = if n % 2 = 0 then Phase.inhale else Phase.exhale := by
  induction n with
  | zero => simp [phaseSeq]
  | succ n ih =>
    rw [phaseSeq_succ, ih]
    have h2 : n % 2 = 0 ∨ n % 2 = 1 := by omega
    rcases h2 with h2 | h2
    · have h3 : (n + 1) % 2 = 1 := by omega
      simp [nextPhase, h, h2, h3]
    · have h3 : (n + 1) % 2 = 0 := by omega
      simp [nextPhase, h, h2, h3]

/-- Helper: with `holdTime > 0` the phase sequence cycles
inhale/hold/exhale with period three. -/
theorem phaseSeq_holdPos (s : Settings) (h : 0 < s.holdTime) (n : Nat) :
    phaseSeq s n =
      if n % 3 = 0 then Phase.inhale
      else if n % 3 = 1 then Phase.hold
      else Phase.exhale := by
  induction n with
  | zero => simp [phaseSeq]
  | succ n ih =>
    rw [phaseSeq_succ, ih]
    have h2 : n % 3 = 0 ∨ n % 3 = 1 ∨ n % 3 = 2 := by omega
    rcases h2 with h2 | h2 | h2
    · have h3 : (n + 1) % 3 = 1 := by omega
      simp [nextPhase, h, h2, h3]
    · have h3 : (n + 1) % 3 = 2 := by omega
      simp [nextPhase, h, h2, h3]
    · have h3 : (n + 1) % 3 = 0 := by omega
      have h4 : ¬ n % 3 = 0 := by omega
      have h5 : ¬ n % 3 = 1 := by omega
      simp [nextPhase, h, h3, h4, h5]

/-- C1: for every settings value the phase machine starts in `inhale` and
steps by `nextPhase` (inhale → hold iff `holdTime > 0` else exhale,
hold → exhale, exhale → inhale); with `holdTime = 0` the sequence is
inhale, exhale, inhale, … and `hold` is never entered; with `holdTime > 0`
it is inhale, hold, exhale, inhale, …. -/
theorem phase_machine (s : Settings) :
    phaseSeq s 0 = Phase.inhale
    ∧ (∀ n, phaseSeq s (n + 1) = nextPhase s (phaseSeq s n))
    ∧ nextPhase s Phase.inhale =
        (if 0 < s.holdTime then Phase.hold else Phase.exhale)
    ∧ nextPhase s Phase.hold = Phase.exhale
    ∧ nextPhase s Phase.exhale = Phase.inhale
    ∧ (s.holdTime = 0 →
        ∀ n, phaseSeq s n =
          if n % 2 = 0 then Phase.inhale else Phase.exhale)
    ∧ (s.holdTime = 0 → ∀ n, phaseSeq s n ≠ Phase.hold)
    ∧ (0 < s.holdTime →
        ∀ n, phaseSeq s n =
          if n % 3 = 0 then Phase.inhale
          else if n % 3 = 1 then Phase.hold
          else Phase.exhale) := by
  refine ⟨rfl, fun n => rfl, rfl, rfl, rfl, ?_, ?_, ?_⟩
  · intro h n
    exact phaseSeq_holdZero s h n
  · intro h n
    rw [phaseSeq_holdZero s h n]
    split <;> simp
  · intro h n
    exact phaseSeq_holdPos s h n

/-- C1 witness: the two hypothesised parts of `phase_machine`, evaluated at
the spec's scenario presets `{5,0,6,7}` (no hold) and `{4,6,7,6}` (hold). -/
theorem phase_machine_witness :
    phaseSeq ⟨5, 0, 6, 7⟩ 4 ≠ Phase.hold
    ∧ phaseSeq ⟨4, 6, 7, 6⟩ 1 = Phase.hold := by
  have h1 := phase_machine ⟨5, 0, 6, 7⟩
  have h2 := phase_machine ⟨4, 6, 7, 6⟩
  refine ⟨h1.2.2.2.2.2.2.1 rfl 4, ?_⟩
  rw [h2.2.2.2.2.2.2.2 (by decide) 1]
  decide

/-- C2 counterexample: the claimed zero-duration skip policy fails for the
inhale phase.  With settings `{inhaleTime: 0, holdTime: 0, exhaleTime: 4,
duration: 5}` the inhale phase has duration `0`, yet it is entered as the
active phase (it is the initial phase), its audio cue is played on entry,
and its animation interval still fires one step. -/
theorem zero_phase_not_skipped :
    phaseDuration ⟨0, 0, 4, 5⟩ Phase.inhale = 0
    ∧ phaseSeq ⟨0, 0, 4, 5⟩ 0 = Phase.inhale
    ∧ entryPlaysCue Phase.inhale = true
    ∧ phaseAnimTickCount ⟨0, 0, 4, 5⟩ Phase.inhale = 1 := by
  refine ⟨rfl, rfl, rfl, ?_⟩
  decide

/-- C2 amended: only the hold phase is subject to the zero-duration skip —
when `holdTime = 0` the machine goes straight from inhale to exhale and
`hold` is never entered (and the hold case never animates or plays a cue in
any configuration); a zero-duration inhale or exhale phase is still entered,
still plays its cue on entry, and its animation interval still fires one
step before transitioning. -/
theorem zero_phase_policy (s : Settings) :
    (s.holdTime = 0 → ∀ n, phaseSeq s n ≠ Phase.hold)
    ∧ phaseAnimTickCount s Phase.hold = 0
    ∧ entryPlaysCue Phase.hold = false
    ∧ (s.inhaleTime = 0 →
        phaseSeq s 0 = Phase.inhale
        ∧ entryPlaysCue Phase.inhale = true
        ∧ phaseAnimTickCount s Phase.inhale = 1)
    ∧ (s.exhaleTime = 0 →
        (∃ n, phaseSeq s n = Phase.exhale)
        ∧ entryPlaysCue Phase.exhale = true
        ∧ phaseAnimTickCount s Phase.exhale = 1) := by
  refine ⟨?_, rfl, rfl, ?_, ?_⟩
  · intro h n
    rw [phaseSeq_holdZero s h n]
    split <;> simp
  · intro h
    refine ⟨rfl, rfl, ?_⟩
    simp [phaseAnimTickCount, animTickIndices, inhaleSteps, h]
  · intro h
    refine ⟨?_, rfl, ?_⟩
    · by_cases hh : 0 < s.holdTime
      · exact ⟨2, by rw [phaseSeq_holdPos s hh 2]; decide⟩
      · have hz : s.holdTime = 0 := by omega
        exact ⟨1, by rw [phaseSeq_holdZero s hz 1]; decide⟩
    · simp [phaseAnimTickCount, animTickIndices, exhaleSteps, h]

/-- C2 amended witness: `zero_phase_policy` evaluated at the all-zero-phase
configuration `{0,0,0,1}`, discharging all three hypotheses. -/
theorem zero_phase_policy_witness :
    phaseSeq ⟨0, 0, 0, 1⟩ 5 ≠ Phase.hold
    ∧ phaseSeq ⟨0, 0, 0, 1⟩ 0 = Phase.inhale
    ∧ entryPlaysCue Phase.inhale = true
    ∧ phaseAnimTickCount ⟨0, 0, 0, 1⟩ Phase.inhale = 1
    ∧ phaseAnimTickCount ⟨0, 0, 0, 1⟩ Phase.exhale = 1 := by
  have h := zero_phase_policy ⟨0, 0, 0, 1⟩
  exact ⟨h.1 rfl 5, (h.2.2.2.1 rfl).1, (h.2.2.2.1 rfl).2.1,
    (h.2.2.2.1 rfl).2.2, (h.2.2.2.2 rfl).2.2⟩

/-- C7: for all valid settings, a session starts with
`remainingTime = duration * 60` and `currentPhase = inhale`. -/
theorem session_init (s : Settings) (hv : Valid s) :
    (initState s).remainingTime = s.duration * 60
    ∧ (initState s).currentPhase = Phase.inhale :=
  ⟨rfl, rfl⟩

/-- C7 witness: `session_init` at the host page's default settings
`{4,0,4,5}`, whose validity is checked concretely. -/
theorem session_init_witness :
    Valid ⟨4, 0, 4, 5⟩
    ∧ (initState ⟨4, 0, 4, 5⟩).remainingTime = 5 * 60
    ∧ (initState ⟨4, 0, 4, 5⟩).currentPhase = Phase.inhale :=
  ⟨by decide, session_init ⟨4, 0, 4, 5⟩ (by decide)⟩

/-- Helper: closed form of the countdown trace for a positive start value:
it counts down once per tick until the tick where `prev <= 1`, which clears
the interval, schedules `onStop` and pins the value at `0`, after which the
state is frozen. -/
theorem cdTrace_closed (p : Phase) (r : Except String Unit) (T : Int)
    (hT : 1 ≤ T) (k : Nat) :
    cdTrace p r T k =
      if (k : Int) < T then ⟨T - k, true, 0⟩ else ⟨0, false, 1⟩ := by
  induction k with
  | zero =>
    rw [if_pos (by exact_mod_cast hT)]
    simp [cdTrace]
  | succ k ih =>
    rw [cdTrace, ih]
    by_cases hk : (k : Int) < T
    · rw [if_pos hk]
      by_cases hk1 : ((k : Int) + 1) < T
      · rw [if_pos (by push_cast; omega)]
        have hv : ¬ T - (k : Int) ≤ 1 := by omega
        simp [cdStep, hv] <;> omega
      · rw [if_neg (by push_cast; omega)]
        have hv : T - (k : Int) ≤ 1 := by omega
        simp [cdStep, hv]
    · rw [if_neg hk, if_neg (by push_cast; omega)]
      simp [cdStep]

/-- Helper: one countdown tick's state update is independent of the play
outcome and of the phase argument. -/
theorem cdStep_state_ignores (p q : Phase) (r r2 : Except String Unit)
    (st : CdState) : (cdStep p r st).1 = (cdStep q r2 st).1 := by
  unfold cdStep
  split_ifs <;> rfl

/-- Helper: the whole countdown trace is independent of the play outcome and
of the phase argument. -/
theorem cdTrace_ignores (p q : Phase) (r r2 : Except String Unit) (T : Int)
    (k : Nat) : cdTrace p r T k = cdTrace q r2 T k := by
  induction k with
  | zero => rfl
  | succ k ih => rw [cdTrace, cdTrace, ih, cdStep_state_ignores p q r r2]

/-- C3: starting from `duration * 60` (duration ≥ 1 minute), the session
countdown ticks down once per second; at the tick where `prev <= 1` it
clears its own interval, schedules the no-argument `onStop` callback after a
fixed `1000` ms grace delay, and freezes at `0` — so `onStop` is scheduled
exactly once over the whole trace; the end-cue play outcome only affects the
log, never the countdown state (failure is swallowed), and the handler is
independent of which phase is active. -/
theorem session_end (d : Nat) (hd : 1 ≤ d) (p : Phase)
    (r : Except String Unit) :
    (∀ k : Nat, (k : Int) < (d : Int) * 60 →
        cdTrace p r ((d : Int) * 60) k = ⟨(d : Int) * 60 - k, true, 0⟩)
    ∧ (∀ k : Nat, (d : Int) * 60 ≤ (k : Int) →
        cdTrace p r ((d : Int) * 60) k = ⟨0, false, 1⟩)
    ∧ (∀ k : Nat, (cdTrace p r ((d : Int) * 60) k).stopsScheduled ≤ 1)
    ∧ (∀ (q : Phase) (r2 : Except String Unit) (k : Nat),
        cdTrace q r2 ((d : Int) * 60) k = cdTrace p r ((d : Int) * 60) k)
    ∧ (∀ (st : CdState) (e : String),
        (cdStep p (Except.error e) st).1 = (cdStep p (Except.ok ()) st).1)
    ∧ onStopDelayMs = 1000 := by
  have hT : (1 : Int) ≤ (d : Int) * 60 := by
    have : (1 : Int) ≤ (d : Int) := by exact_mod_cast hd
    nlinarith
  refine ⟨?_, ?_, ?_, ?_, ?_, rfl⟩
  · intro k hk
    rw [cdTrace_closed p r _ hT k, if_pos hk]
  · intro k hk
    rw [cdTrace_closed p r _ hT k, if_neg (by omega)]
  · intro k
    rw [cdTrace_closed p r _ hT k]
    split <;> simp
  · intro q r2 k
    exact cdTrace_ignores q p r2 r _ k
  · intro st e
    exact cdStep_state_ignores p p (Except.error e) (Except.ok ()) st

/-- C3 witness: `session_end` for a one-minute session: after 60 ticks the
countdown has stopped and `onStop` has been scheduled exactly once. -/
theorem session_end_witness :
    cdTrace Phase.inhale (Except.ok ()) (((1 : Nat) : Int) * 60) 60
      = ⟨0, false, 1⟩ := by
  exact (session_end 1 (by decide) Phase.inhale (Except.ok ())).2.1 60
    (by norm_num)

/-- Helper: closed form of the phase-timer trace for nominal duration
`d ≥ 0`: it shows `d, d-1, …, 1` and at the tick where the value would drop
below `1` it resets to `d` and clears its interval (a `0`-duration phase
clears on the very first tick). -/
theorem ptTrace_closed (d : Nat) (k : Nat) :
    ptTrace (d : Int) k =
      if k < max d 1 then ⟨(d : Int) - k, true⟩ else ⟨(d : Int), false⟩ := by
  induction k with
  | zero =>
    rw [if_pos (by omega)]
    simp [ptTrace]
  | succ k ih =>
    rw [ptTrace, ih]
    by_cases hk : k < max d 1
    · rw [if_pos hk]
      by_cases hk1 : k + 1 < max d 1
      · rw [if_pos hk1]
        have hv : ¬ (d : Int) - k ≤ 1 := by omega
        simp [ptStep, hv] <;> omega
      · rw [if_neg hk1]
        have hv : (d : Int) - k ≤ 1 := by omega
        simp [ptStep, hv]
    · rw [if_neg hk, if_neg (by omega)]
      simp [ptStep]

/-- C10: within one phase (nominal duration `d`), the phase countdown shows
`d - k` after `k` ticks while running, never goes below `0`, never exceeds
`d`; at tick `max d 1` (the tick where the value would drop below `1`) it
resets to the nominal duration and clears its own interval, and from then on
the state never changes again — at most one cycle per phase entry. -/
theorem phaseTimer_behavior (d k : Nat) :
    0 ≤ (ptTrace (d : Int) k).v
    ∧ (ptTrace (d : Int) k).v ≤ (d : Int)
    ∧ (k < max d 1 → ptTrace (d : Int) k = ⟨(d : Int) - k, true⟩)
    ∧ (max d 1 ≤ k → ptTrace (d : Int) k = ⟨(d : Int), false⟩)
    ∧ (∀ j : Nat, max d 1 ≤ j →
        ptTrace (d : Int) j = ptTrace (d : Int) (max d 1)) := by
  refine ⟨?_, ?_, ?_, ?_, ?_⟩
  · rw [ptTrace_closed d k]
    split <;> simp <;> omega
  · rw [ptTrace_closed d k]
    split <;> simp <;> omega
  · intro h
    rw [ptTrace_closed d k, if_pos h]
  · intro h
    rw [ptTrace_closed d k, if_neg (by omega)]
  · intro j hj
    rw [ptTrace_closed d j, if_neg (by omega),
      ptTrace_closed d (max d 1), if_neg (by omega)]

/-- C10 witness: `phaseTimer_behavior` for a 4-second phase: after 2 ticks
the display shows `2` and is still running; at tick 4 and at tick 7 the
value is back at the nominal duration with the interval cleared. -/
theorem phaseTimer_behavior_witness :
    ptTrace ((4 : Nat) : Int) 2 = ⟨((4 : Nat) : Int) - 2, true⟩
    ∧ ptTrace ((4 : Nat) : Int) 7 = ⟨((4 : Nat) : Int), false⟩ :=
  ⟨(phaseTimer_behavior 4 2).2.2.1 (by decide),
    (phaseTimer_behavior 4 7).2.2.2.1 (by decide)⟩

/-- C6 (code bug exhibit): in the gain-node variant (`part_000`, the spec's
reference variant) the animation effect's cleanup does not clear the step
interval — so tearing down at step 10 of the 120-step inhale animation of
settings `{4,6,7,6}` leaves 110 further `setScale` ticks to fire — whereas
the volume-stepping variant (`part_001`) does clear it, leaving none. -/
theorem anim_cleanup_divergence :
    CleanupAction.clearStepTimer ∉ animCleanupGainNodeVariant
    ∧ ticksAfterTeardown animCleanupGainNodeVariant
        (inhaleSteps ⟨4, 6, 7, 6⟩) 10 = 110
    ∧ ticksAfterTeardown animCleanupVolumeStepVariant
        (inhaleSteps ⟨4, 6, 7, 6⟩) 10 = 0 := by
  refine ⟨by decide, ?_, by decide⟩
  decide

/-- Helper: for a positive step count and a tick index within range, the
inhale scale value lies in `[1, 1.3]`. -/
theorem inhaleScaleAt_mem (n k : Nat) (hn : 0 < n) (hk : k ≤ n) :
    1 ≤ inhaleScaleAt n k ∧ inhaleScaleAt n k ≤ 1.3 := by
  have hn0 : (0 : ℝ) < (n : ℝ) := by exact_mod_cast hn
  have hp0 : (0 : ℝ) ≤ (k : ℝ) / (n : ℝ) := by positivity
  have hp1 : (k : ℝ) / (n : ℝ) ≤ 1 := by
    rw [div_le_one hn0]
    exact_mod_cast hk
  have hpi := Real.pi_pos
  have hx0 : (0 : ℝ) ≤ (k : ℝ) / (n : ℝ) * Real.pi / 2 := by positivity
  have hx1 : (k : ℝ) / (n : ℝ) * Real.pi / 2 ≤ Real.pi / 2 := by
    nlinarith
  have hc1 : Real.cos ((k : ℝ) / (n : ℝ) * Real.pi / 2) ≤ 1 :=
    Real.cos_le_one _
  have hc0 : 0 ≤ Real.cos ((k : ℝ) / (n : ℝ) * Real.pi / 2) :=
    Real.cos_nonneg_of_mem_Icc ⟨by linarith, hx1⟩
  unfold inhaleScaleAt
  constructor <;> nlinarith

/-- Helper: for a positive step count and a tick index within range, the
exhale scale value lies in `[1, 1.3]`. -/
theorem exhaleScaleAt_mem (n k : Nat) (hn : 0 < n) (hk : k ≤ n) :
    1 ≤ exhaleScaleAt n k ∧ exhaleScaleAt n k ≤ 1.3 := by
  have hn0 : (0 : ℝ) < (n : ℝ) := by exact_mod_cast hn
  have hp0 : (0 : ℝ) ≤ (k : ℝ) / (n : ℝ) := by positivity
  have hp1 : (k : ℝ) / (n : ℝ) ≤ 1 := by
    rw [div_le_one hn0]
    exact_mod_cast hk
  have hpi := Real.pi_pos
  have hx0 : (0 : ℝ) ≤ (k : ℝ) / (n : ℝ) * Real.pi / 2 := by positivity
  have hx1 : (k : ℝ) / (n : ℝ) * Real.pi / 2 ≤ Real.pi := by
    nlinarith
  have hs1 : Real.sin ((k : ℝ) / (n : ℝ) * Real.pi / 2) ≤ 1 :=
    Real.sin_le_one _
  have hs0 : 0 ≤ Real.sin ((k : ℝ) / (n : ℝ) * Real.pi / 2) :=
    Real.sin_nonneg_of_nonneg_of_le_pi hx0 hx1
  unfold exhaleScaleAt
  constructor <;> nlinarith

/-- C4 counterexample: the claimed invariant — under the spec's implicit
requirement `inhaleTime + exhaleTime > 0` every reachable scale value lies
in `[1.0, 1.3]` — is false.  The valid settings `{inhaleTime: 0, holdTime:
0, exhaleTime: 1, duration: 5}` satisfy the requirement, yet the single tick
of the zero-step inhale animation sets `scale` to `NaN` (progress is
`1 / 0 = Infinity` in JavaScript, and `cos` of that is `NaN`), which is not
in `[1.0, 1.3]`. -/
theorem scale_range_claim_false :
    ¬ (∀ s : Settings, Valid s → 0 < s.inhaleTime + s.exhaleTime →
        ∀ v ∈ reachableScales s, inRangeJS v) := by
  intro h
  have hm : JSVal.nan ∈ reachableScales ⟨0, 0, 1, 5⟩ := by
    unfold reachableScales
    refine List.mem_cons_of_mem _ (List.mem_append_left _ ?_)
    refine List.mem_map.mpr ⟨1, ?_, ?_⟩
    · decide
    · rfl
  obtain ⟨x, hx, -, -⟩ := h ⟨0, 0, 1, 5⟩ (by decide) (by decide) JSVal.nan hm
  exact JSVal.noConfusion hx

/-- C4 amended: for every settings value in which both animated phases have
positive duration (`inhaleTime > 0` and `exhaleTime > 0`), every value the
`scale` state takes during the session lies in the closed interval
`[1.0, 1.3]`. -/
theorem scale_invariant (s : Settings) (hi : 0 < s.inhaleTime)
    (he : 0 < s.exhaleTime) :
    ∀ v ∈ reachableScales s, inRangeJS v := by
  have hni : 0 < inhaleSteps s := by
    unfold inhaleSteps; omega
  have hne : 0 < exhaleSteps s := by
    unfold exhaleSteps; omega
  intro v hv
  unfold reachableScales at hv
  rcases List.mem_cons.mp hv with rfl | hv2
  · exact ⟨1, rfl, le_refl _, by norm_num⟩
  rcases List.mem_append.mp hv2 with hvi | hve
  · obtain ⟨k, hk, rfl⟩ := List.mem_map.mp hvi
    have hk2 : 1 ≤ k ∧ k < 1 + max (inhaleSteps s) 1 :=
      List.mem_range'_1.mp (by simpa [animTickIndices] using hk)
    have hkn : k ≤ inhaleSteps s := by omega
    rw [jsScaleInhale, if_neg (by omega)]
    exact ⟨_, rfl, (inhaleScaleAt_mem _ k hni hkn).1,
      (inhaleScaleAt_mem _ k hni hkn).2⟩
  · obtain ⟨k, hk, rfl⟩ := List.mem_map.mp hve
    have hk2 : 1 ≤ k ∧ k < 1 + max (exhaleSteps s) 1 :=
      List.mem_range'_1.mp (by simpa [animTickIndices] using hk)
    have hkn : k ≤ exhaleSteps s := by omega
    rw [jsScaleExhale, if_neg (by omega)]
    exact ⟨_, rfl, (exhaleScaleAt_mem _ k hne hkn).1,
      (exhaleScaleAt_mem _ k hne hkn).2⟩

/-- C4 amended witness: `scale_invariant` at the spec's scenario A settings
`{4,6,7,6}`, whose phase durations are concretely positive, applied to the
entry-reset scale value. -/
theorem scale_invariant_witness :
    inRangeJS (JSVal.fin inhaleEntryScale) :=
  scale_invariant ⟨4, 6, 7, 6⟩ (by decide) (by decide)
    (JSVal.fin inhaleEntryScale) (List.mem_cons_self _ _)

/-- C5: with positive inhale and exhale durations, the inhale animation runs
exactly `inhaleTime * 30` ticks at `1000 / 30` ms per tick, tick `k` setting
`scale = 1 + 0.3 * (1 - cos(k / n * π / 2))`; the exhale animation runs
`exhaleTime * 30` ticks setting `scale = 1.3 - 0.3 * sin(k / m * π / 2)`;
the inhale starts from the entry reset `1` and its last tick sets `1.3`, and
the exhale's last tick sets `1`. -/
theorem anim_step_formula (s : Settings) (hi : 0 < s.inhaleTime)
    (he : 0 < s.exhaleTime) :
    inhaleSteps s = s.inhaleTime * 30
    ∧ exhaleSteps s = s.exhaleTime * 30
    ∧ stepIntervalMs * 30 = 1000
    ∧ animTickIndices (inhaleSteps s) = List.range' 1 (inhaleSteps s)
    ∧ (animTickIndices (inhaleSteps s)).length = inhaleSteps s
    ∧ (animTickIndices (exhaleSteps s)).length = exhaleSteps s
    ∧ (∀ k, jsScaleInhale (inhaleSteps s) k
        = JSVal.fin (1 + 0.3 *
            (1 - Real.cos ((k : ℝ) / (inhaleSteps s : ℝ) * Real.pi / 2))))
    ∧ (∀ k, jsScaleExhale (exhaleSteps s) k
        = JSVal.fin (1.3 - 0.3 *
            Real.sin ((k : ℝ) / (exhaleSteps s : ℝ) * Real.pi / 2)))
    ∧ inhaleEntryScale = 1
    ∧ jsScaleInhale (inhaleSteps s) (inhaleSteps s) = JSVal.fin 1.3
    ∧ jsScaleExhale (exhaleSteps s) (exhaleSteps s) = JSVal.fin 1 := by
  have hni : inhaleSteps s ≠ 0 := by
    unfold inhaleSteps; omega
  have hne : exhaleSteps s ≠ 0 := by
    unfold exhaleSteps; omega
  have hcastI : ((inhaleSteps s : ℝ)) ≠ 0 := Nat.cast_ne_zero.mpr hni
  have hcastE : ((exhaleSteps s : ℝ)) ≠ 0 := Nat.cast_ne_zero.mpr hne
  refine ⟨rfl, rfl, by norm_num [stepIntervalMs], ?_, ?_, ?_, ?_, ?_, rfl,
    ?_, ?_⟩
  · unfold animTickIndices
    rw [Nat.max_eq_left (by omega)]
  · unfold animTickIndices
    rw [Nat.max_eq_left (by omega), List.length_range']
  · unfold animTickIndices
    rw [Nat.max_eq_left (by omega), List.length_range']
  · intro k
    rw [jsScaleInhale, if_neg hni, inhaleScaleAt]
  · intro k
    rw [jsScaleExhale, if_neg hne, exhaleScaleAt]
  · rw [jsScaleInhale, if_neg hni, inhaleScaleAt, div_self hcastI]
    rw [one_mul, Real.cos_pi_div_two]
    norm_num
  · rw [jsScaleExhale, if_neg hne, exhaleScaleAt, div_self hcastE]
    rw [one_mul, Real.sin_pi_div_two]
    norm_num

/-- C5 witness: `anim_step_formula` at scenario A settings `{4,6,7,6}`: the
inhale animation has `120` ticks and its final tick sets scale `1.3`; the
exhale animation has `210` ticks and its final tick sets scale `1`. -/
theorem anim_step_formula_witness :
    (animTickIndices (inhaleSteps ⟨4, 6, 7, 6⟩)).length
        = inhaleSteps ⟨4, 6, 7, 6⟩
    ∧ jsScaleInhale (inhaleSteps ⟨4, 6, 7, 6⟩) (inhaleSteps ⟨4, 6, 7, 6⟩)
        = JSVal.fin 1.3
    ∧ jsScaleExhale (exhaleSteps ⟨4, 6, 7, 6⟩) (exhaleSteps ⟨4, 6, 7, 6⟩)
        = JSVal.fin 1 := by
  have h := anim_step_formula ⟨4, 6, 7, 6⟩ (by decide) (by decide)
  exact ⟨h.2.2.2.2.1, h.2.2.2.2.2.2.2.2.2.1, h.2.2.2.2.2.2.2.2.2.2⟩

/-- Helper: `takeWhile` over a block that wholly satisfies the predicate,
followed by a failing character, keeps exactly the block. -/
theorem takeWhile_all_append {α : Type} (p : α → Bool) (l : List α) (c : α)
    (r : List α) (hl : ∀ x ∈ l, p x = true) (hc : p c = false) :
    (l ++ c :: r).takeWhile p = l := by
  induction l with
  | nil => simp [List.takeWhile_cons, hc]
  | cons a l ih =>
    have ha : p a = true := hl a (List.mem_cons_self a l)
    simp only [List.cons_append, List.takeWhile_cons, ha, if_true]
    rw [ih fun x hx => hl x (List.mem_cons_of_mem a hx)]

/-- Helper: `dropWhile` over a block that wholly satisfies the predicate,
followed by a failing character, drops exactly the block. -/
theorem dropWhile_all_append {α : Type} (p : α → Bool) (l : List α) (c : α)
    (r : List α) (hl : ∀ x ∈ l, p x = true) (hc : p c = false) :
    (l ++ c :: r).dropWhile p = c :: r := by
  induction l with
  | nil => simp [List.dropWhile_cons, hc]
  | cons a l ih =>
    have ha : p a = true := hl a (List.mem_cons_self a l)
    simp only [List.cons_append, List.dropWhile_cons, ha, if_true]
    exact ih fun x hx => hl x (List.mem_cons_of_mem a hx)

/-- Helper: `digitVal` inverts `digitChar` below ten. -/
theorem digitVal_digitChar (k : Nat) (h : k < 10) :
    digitVal (digitChar k) = k := by
  interval_cases k <;> decide

/-- Helper: `digitChar` produces digit characters below ten. -/
theorem isDigit_digitChar (k : Nat) (h : k < 10) :
    (digitChar k).isDigit = true := by
  interval_cases k <;> decide

/-- Helper: a decimal rendering is never empty. -/
theorem natLitList_ne_nil (n : Nat) : natLitList n ≠ [] := by
  rw [natLitList]
  split <;> simp

/-- Helper: a decimal rendering consists of digit characters. -/
theorem natLitList_all_digit (n : Nat) :
    ∀ c ∈ natLitList n, c.isDigit = true := by
  induction n using Nat.strong_induction_on with
  | _ n ih =>
    rw [natLitList]
    split
    · next h =>
      intro c hc
      rw [List.mem_singleton.mp hc]
      exact isDigit_digitChar n h
    · next h =>
      intro c hc
      rcases List.mem_append.mp hc with hc2 | hc2
      · exact ih (n / 10) (Nat.div_lt_self (by omega) (by omega)) c hc2
      · rw [List.mem_singleton.mp hc2]
        exact isDigit_digitChar (n % 10) (by omega)

/-- Helper: the value of a digit string with one more digit appended. -/
theorem digitsVal_append_digit (l : List Char) (c : Char) :
    digitsVal (l ++ [c]) = 10 * digitsVal l + digitVal c := by
  simp [digitsVal, List.foldl_append]

/-- Helper: `digitsVal` inverts the decimal rendering. -/
theorem digitsVal_natLit (n : Nat) : digitsVal (natLitList n) = n := by
  induction n using Nat.strong_induction_on with
  | _ n ih =>
    rw [natLitList]
    split
    · next h =>
      simp [digitsVal, digitVal_digitChar n h]
    · next h =>
      rw [digitsVal_append_digit,
        ih (n / 10) (Nat.div_lt_self (by omega) (by omega)),
        digitVal_digitChar (n % 10) (by omega)]
      omega

/-- Helper: a digit character is none of the characters that select another
branch of the `parseVal` dispatch. -/
theorem digit_not_special (c : Char) (h : c.isDigit = true) :
    c ≠ 'n' ∧ c ≠ 't' ∧ c ≠ 'f' ∧ c ≠ '"' ∧ c ≠ '\x7b' ∧ c ≠ '-' := by
  refine ⟨?_, ?_, ?_, ?_, ?_, ?_⟩ <;>
    (intro hh; subst hh; revert h; decide)

/-- Helper: `parseNum` on a decimal rendering followed by a non-digit
terminator consumes exactly the number. -/
theorem parseNum_natLit (n : Nat) (c : Char) (r : List Char)
    (hc : c.isDigit = false) :
    parseNum (natLitList n ++ c :: r) = .ok (.jnum (n : Int), c :: r) := by
  unfold parseNum
  rw [takeWhile_all_append _ _ _ _ (natLitList_all_digit n) hc,
    dropWhile_all_append _ _ _ _ (natLitList_all_digit n) hc,
    if_neg (natLitList_ne_nil n), digitsVal_natLit]

/-- Helper: `parseScalar` on a decimal rendering followed by a non-digit
terminator dispatches to the number case. -/
theorem parseScalar_natLit (n : Nat) (c : Char) (r : List Char)
    (hc : c.isDigit = false) :
    parseScalar (natLitList n ++ c :: r) = .ok (.jnum (n : Int), c :: r) := by
  obtain ⟨d, ds, hds⟩ := List.exists_cons_of_ne_nil (natLitList_ne_nil n)
  have hd : d.isDigit = true :=
    natLitList_all_digit n d (by rw [hds]; exact List.mem_cons_self d ds)
  have hs := digit_not_special d hd
  rw [hds, List.cons_append, parseScalar]
  rw [if_neg hs.1, if_neg hs.2.1, if_neg hs.2.2.1, if_neg hs.2.2.2.1,
    if_neg hs.2.2.2.2.2]
  rw [← List.cons_append, ← hds]
  exact parseNum_natLit n c r hc

/-- Helper: parsing a string literal whose body contains no quote. -/
theorem parseStringRest_key (key : String) (r : List Char)
    (hk : ∀ c ∈ key.data, c ≠ '"') :
    parseStringRest (key.data ++ '"' :: r) = .ok (key, r) := by
  have hk2 : ∀ c ∈ key.data, (c != '"') = true := fun c hc => by
    simpa using hk c hc
  have hq : (('"' : Char) != '"') = false := by decide
  unfold parseStringRest
  rw [dropWhile_all_append _ _ _ _ hk2 hq,
    takeWhile_all_append _ _ _ _ hk2 hq]
  rfl

/-- Helper: `Except.bind` on a success. -/
theorem except_bind_ok {α β : Type} (a : α) (f : α → Except String β) :
    (Except.ok a : Except String α).bind f = f a := rfl

/-- Helper: `expectColon` on a colon-headed remainder. -/
theorem expectColon_ok (key : String) (cs2 : List Char) :
    expectColon (key, ':' :: cs2) = .ok (key, cs2) := rfl

/-- Helper: `finishMember` before a comma. -/
theorem finishMember_comma (key : String) (v : JsonVal) (cs4 : List Char) :
    finishMember key (v, ',' :: cs4) = .ok ((key, v), .comma cs4) := rfl

/-- Helper: `finishMember` before the closing brace. -/
theorem finishMember_close (key : String) (v : JsonVal) (cs4 : List Char) :
    finishMember key (v, '\x7d' :: cs4) = .ok ((key, v), .close cs4) := rfl

/-- Helper: parsing one rendered `"key":n` member terminated by a comma. -/
theorem parseOneMember_comma (key : String) (n : Nat) (cs4 : List Char)
    (hk : ∀ c ∈ key.data, c ≠ '"') :
    parseOneMember
        ('"' :: (key.data ++ '"' :: ':' :: (natLitList n ++ ',' :: cs4)))
      = .ok ((key, .jnum (n : Int)), .comma cs4) := by
  have h2 := parseStringRest_key key (':' :: (natLitList n ++ ',' :: cs4)) hk
  have h3 := parseScalar_natLit n ',' cs4 (by decide)
  rw [parseOneMember, if_pos rfl]
  simp only [h2, except_bind_ok, expectColon_ok, h3, finishMember_comma]

/-- Helper: parsing one rendered `"key":n` member terminated by the closing
brace. -/
theorem parseOneMember_close (key : String) (n : Nat) (cs4 : List Char)
    (hk : ∀ c ∈ key.data, c ≠ '"') :
    parseOneMember
        ('"' :: (key.data ++ '"' :: ':' :: (natLitList n ++ '\x7d' :: cs4)))
      = .ok ((key, .jnum (n : Int)), .close cs4) := by
  have h2 := parseStringRest_key key (':' :: (natLitList n ++ '\x7d' :: cs4)) hk
  have h3 := parseScalar_natLit n '\x7d' cs4 (by decide)
  rw [parseOneMember, if_pos rfl]
  simp only [h2, except_bind_ok, expectColon_ok, h3, finishMember_close]

/-- Helper: each rendered member is at least four characters long. -/
theorem length_fieldData (kv : String × Nat) : 4 ≤ (fieldData kv).length := by
  have h1 : 0 < (natLitList kv.2).length :=
    List.length_pos.mpr (natLitList_ne_nil kv.2)
  simp only [fieldData, List.length_append, List.length_cons, List.length_nil]
  omega

/-- Helper: the rendered members are at least as many characters as there
are members. -/
theorem length_fieldsData (fields : List (String × Nat)) :
    fields.length ≤ (fieldsData fields).length := by
  induction fields with
  | nil => simp [fieldsData]
  | cons kv tail ih =>
    rcases tail with _ | ⟨kv2, tail2⟩
    · have h1 := length_fieldData kv
      simp only [fieldsData, List.length_cons, List.length_nil]
      omega
    · have h1 := length_fieldData kv
      rw [show fieldsData (kv :: kv2 :: tail2)
          = fieldData kv ++ [','] ++ fieldsData (kv2 :: tail2) from rfl]
      simp only [List.length_append, List.length_cons, List.length_nil]
      simp only [List.length_cons] at ih ⊢
      omega

/-- Helper: the rendered member list of a nonempty field list starts with a
quote. -/
theorem fieldsData_cons_head (kv : String × Nat) (tail : List (String × Nat)) :
    ∃ t, fieldsData (kv :: tail) = '"' :: t := by
  rcases tail with _ | ⟨kv2, tail2⟩
  · exact ⟨kv.1.data ++ '"' :: ':' :: natLitList kv.2,
      by simp [fieldsData, fieldData]⟩
  · refine ⟨kv.1.data ++ '"' :: ':'
        :: (natLitList kv.2 ++ ',' :: fieldsData (kv2 :: tail2)), ?_⟩
    rw [show fieldsData (kv :: kv2 :: tail2)
        = fieldData kv ++ [','] ++ fieldsData (kv2 :: tail2) from rfl]
    simp [fieldData, List.append_assoc]

/-- Helper: `parseMembers` parses a rendered nonempty flat object of
integer fields, given enough fuel and quote-free keys. -/
theorem parseMembers_fieldsData (fields : List (String × Nat)) (F : Nat)
    (acc : List (String × JsonVal)) (rest : List Char)
    (hne : fields ≠ [])
    (hkeys : ∀ kv ∈ fields, ∀ c ∈ kv.1.data, c ≠ '"')
    (hF : fields.length < F) :
    parseMembers F (fieldsData fields ++ '\x7d' :: rest) acc
      = .ok (.jobj (acc ++ fields.map fun kv => (kv.1, JsonVal.jnum (kv.2 : Int))),
          rest) := by
  revert hne hkeys hF
  induction fields generalizing F acc with
  | nil =>
    intro hne _ _
    exact absurd rfl hne
  | cons kv tail ih =>
    intro _ hkeys hF
    obtain ⟨f, rfl⟩ : ∃ f, F = f + 1 := ⟨F - 1, by omega⟩
    have hkv : ∀ c ∈ kv.1.data, c ≠ '"' :=
      hkeys kv (List.mem_cons_self kv tail)
    rcases tail with _ | ⟨kv2, tail2⟩
    · rw [show fieldsData [kv] = fieldData kv from rfl]
      rw [show fieldData kv ++ '\x7d' :: rest
          = '"' :: (kv.1.data ++ '"' :: ':' :: (natLitList kv.2 ++ '\x7d' :: rest))
          from by simp [fieldData, List.append_assoc]]
      rw [parseMembers, parseOneMember_close kv.1 kv.2 rest hkv]
      rfl
    · rw [show fieldsData (kv :: kv2 :: tail2) ++ '\x7d' :: rest
          = '"' :: (kv.1.data ++ '"' :: ':' :: (natLitList kv.2
              ++ ',' :: (fieldsData (kv2 :: tail2) ++ '\x7d' :: rest)))
          from by
            rw [show fieldsData (kv :: kv2 :: tail2)
                = fieldData kv ++ [','] ++ fieldsData (kv2 :: tail2) from rfl]
            simp [fieldData, List.append_assoc]]
      rw [parseMembers,
        parseOneMember_comma kv.1 kv.2
          (fieldsData (kv2 :: tail2) ++ '\x7d' :: rest) hkv]
      trans parseMembers f (fieldsData (kv2 :: tail2) ++ '\x7d' :: rest)
        (acc ++ [(kv.1, JsonVal.jnum (kv.2 : Int))])
      · rfl
      rw [ih f (acc ++ [(kv.1, JsonVal.jnum (kv.2 : Int))]) (by simp)
        (fun kv3 h3 => hkeys kv3 (List.mem_cons_of_mem kv h3))
        (by simp only [List.length_cons] at hF ⊢; omega)]
      simp

/-- Helper: the persisted favorite JSON round-trips through the parser. -/
theorem jsonParse_stringify (v : Settings) :
    jsonParse (stringifySettings v) = .ok (settingsJson v) := by
  have hkeys : ∀ kv ∈ settingsFields v, ∀ c ∈ kv.1.data, c ≠ '"' := by
    intro kv hkv
    simp only [settingsFields, List.mem_cons, List.not_mem_nil, or_false]
      at hkv
    rcases hkv with rfl | rfl | rfl | rfl
    · exact (by decide : ∀ c ∈ ("inhaleTime" : String).data, c ≠ '"')
    · exact (by decide : ∀ c ∈ ("holdTime" : String).data, c ≠ '"')
    · exact (by decide : ∀ c ∈ ("exhaleTime" : String).data, c ≠ '"')
    · exact (by decide : ∀ c ∈ ("duration" : String).data, c ≠ '"')
  obtain ⟨t, ht⟩ :=
    fieldsData_cons_head ("inhaleTime", v.inhaleTime)
      [("holdTime", v.holdTime), ("exhaleTime", v.exhaleTime),
        ("duration", v.duration)]
  have ht2 : fieldsData (settingsFields v) = '"' :: t := ht
  have hlen := length_fieldsData (settingsFields v)
  rw [ht2] at hlen
  simp only [settingsFields, List.length_cons, List.length_nil] at hlen
  unfold jsonParse
  rw [show (stringifySettings v).data
      = '\x7b' :: (fieldsData (settingsFields v) ++ ['\x7d']) from rfl]
  rw [parseJsonValue, if_pos rfl]
  rw [show fieldsData (settingsFields v) ++ ['\x7d'] = '"' :: (t ++ ['\x7d'])
      from by rw [ht2]; rfl]
  rw [parseObjRest, if_neg (by decide)]
  rw [show ('"' :: (t ++ ['\x7d']) : List Char)
      = fieldsData (settingsFields v) ++ '\x7d' :: [] from by rw [ht2]; rfl]
  rw [parseMembers_fieldsData (settingsFields v) ((t ++ ['\x7d']).length + 2)
    [] [] (by simp [settingsFields]) hkeys
    (by
      simp only [settingsFields, List.length_cons, List.length_nil,
        List.length_append]
      omega)]
  rfl

/-- Helper: the rendered favorite is never the empty string. -/
theorem stringifySettings_ne_empty (v : Settings) :
    stringifySettings v ≠ "" := by
  intro h
  have h2 : ('\x7b' :: (fieldsData (settingsFields v) ++ ['\x7d']))
      = ([] : List Char) := congrArg String.data h
  exact List.noConfusion h2

/-- C8 counterexample: reading the persisted favorite can throw.  The
claimed property — the read always succeeds (missing and malformed records
alike yielding an absent favorite) — fails at the stored record `"{oops"`:
the `useState` initializer passes it to `JSON.parse` with no `try`/`catch`,
and the parse error propagates to the caller. -/
theorem favorite_read_claim_false :
    ¬ (∀ stored : Option String, ∃ j : JsonVal, favoriteInit stored = .ok j) := by
  intro h
  obtain ⟨j, hj⟩ := h (some "\x7boops")
  have h2 : favoriteInit (some "\x7boops") = .error "expected object key" :=
    rfl
  rw [h2] at hj
  exact Except.noConfusion hj

/-- C8 amended: a missing record yields no favorite, but a present record
is passed to `JSON.parse` unguarded — its outcome, success or thrown parse
error, propagates as-is to the caller — and no Settings-shape validation is
performed, so any successfully parsed JSON value (such as the bare number
`7`) is accepted as the favorite. -/
theorem favorite_read_model :
    favoriteInit none = .ok JsonVal.jnull
    ∧ (∀ s : String, s ≠ "" → favoriteInit (some s) = jsonParse s)
    ∧ favoriteInit (some "7") = .ok (.jnum 7) := by
  refine ⟨rfl, ?_, rfl⟩
  intro s hs
  rw [favoriteInit, if_neg hs]

/-- C8 amended witness: `favorite_read_model` evaluated at the stored
record `"7"`, discharging the nonemptiness hypothesis. -/
theorem favorite_read_model_witness :
    ("7" : String) ≠ "" ∧ favoriteInit (some "7") = jsonParse "7" :=
  ⟨by decide, favorite_read_model.2.1 "7" (by decide)⟩

/-- C9: saving a favorite then re-running the setup initializer yields a
parsed favorite whose four fields are exactly the saved values (and which
is truthy, so the favorite is present); clearing the favorite then
re-running the initializer yields no favorite. -/
theorem favorite_roundtrip (v : Settings) :
    saveFavorite v = some (stringifySettings v)
    ∧ stringifySettings v ≠ ""
    ∧ favoriteInit (saveFavorite v) = .ok (settingsJson v)
    ∧ getField (settingsJson v) "inhaleTime" = some (.jnum (v.inhaleTime : Int))
    ∧ getField (settingsJson v) "holdTime" = some (.jnum (v.holdTime : Int))
    ∧ getField (settingsJson v) "exhaleTime" = some (.jnum (v.exhaleTime : Int))
    ∧ getField (settingsJson v) "duration" = some (.jnum (v.duration : Int))
    ∧ jsTruthy (settingsJson v) = true
    ∧ favoriteInit clearedFavoriteStore = .ok JsonVal.jnull
    ∧ jsTruthy JsonVal.jnull = false := by
  refine ⟨rfl, stringifySettings_ne_empty v, ?_, rfl, rfl, rfl, rfl, rfl,
    rfl, rfl⟩
  show favoriteInit (some (stringifySettings v)) = _
  rw [favoriteInit, if_neg (stringifySettings_ne_empty v),
    jsonParse_stringify]

end Breathing
